import Mathlib

/-!
Verification of the BoudyPilot conversational agent (src/app.py) against its
natural-language specification.

The program is a LangGraph `StateGraph` over a message-list state.  The
embedding below translates the pure content of `src/app.py`:

* `Msg` models `langchain_core` messages (`HumanMessage`, `AIMessage`,
  `SystemMessage`); a message is a role tag plus a text payload.
* Python string helpers used by the source (`str.strip`, `str.upper`,
  `str.replace`, `"\n".join`, `str.startswith`, the regex
  `re.search(r"\{.*\}", s, re.DOTALL)`) are modelled at the character-list
  level (`pyStrip`, `pyUpper`, `pyReplace`, `joinNl`, `List.isPrefixOf`,
  `braceSpanL`), so every definition evaluates inside the kernel.
* The external capabilities (the Mistral chat model, the Tavily search
  client, the SendGrid client) are oracles: functions supplied as
  parameters.  `client.chat.complete` over a fixed instruction plus the
  latest user message is a `String → String` oracle of that user message;
  `tavily.search` is a `String → Nat → List String` oracle of the query and
  `max_results`, returning the `r["content"]` snippets; `sg.send` is an
  `Except String Nat` outcome (provider error detail, or status code).
* `json.loads` and `ast.literal_eval` (Python standard library, outside the
  repository) are modelled by `json_loads_flat` / `literal_eval_flat`: a
  parser for the fragment the extraction prompt demands — one flat object
  whose keys and values are strings — with the usual single-character
  escapes.  JSON values outside this fragment (numbers, arrays, nested
  objects, `\uXXXX` escapes) are outside the model.
* The LangGraph executor visits nodes in the order given by
  `builder.add_edge` / `builder.add_conditional_edges` and folds every
  node's returned update into the messages channel with the declared
  `_add_messages` reducer (`Annotated[List[BaseMessage], _add_messages]`,
  src/app.py:23-27).  Each node of this program appends to the received
  list in place and returns that same full list, so one superstep is
  `applyNode`: the node's result concatenated with itself.  `agentInvoke`
  mirrors that wiring and also returns the list of visited nodes.
-/

/-- A transcript message: `HumanMessage` / `AIMessage` / `SystemMessage`
with its text content (`langchain_core.messages`). -/
inductive Msg where
  | human (content : String)
  | ai (content : String)
  | system (content : String)
deriving DecidableEq, Repr

/-- The text payload of a message (`m.content`). -/
def Msg.content : Msg → String
  | .human c => c
  | .ai c => c
  | .system c => c

/-- The langchain type tag of a message (`m.type`): `"human"`, `"ai"` or
`"system"`. -/
def Msg.type : Msg → String
  | .human _ => "human"
  | .ai _ => "ai"
  | .system _ => "system"

/-- `isinstance(m, HumanMessage)`. -/
def Msg.isHuman : Msg → Bool
  | .human _ => true
  | _ => false

/-- The characters Python's default `str.strip()` removes: space and the
ASCII control whitespace 9–13 (tab, newline, vertical tab, form feed,
carriage return). -/
def pyWs (c : Char) : Bool := c.toNat = 32 || (9 ≤ c.toNat && c.toNat ≤ 13)

/-- Python `s.strip()` on the character list of `s`. -/
def pyStrip (cs : List Char) : List Char :=
  ((cs.dropWhile pyWs).reverse.dropWhile pyWs).reverse

/-- Python `s.upper()` on the character list of `s` (the source only
compares the result with ASCII labels). -/
def pyUpper (cs : List Char) : List Char := cs.map Char.toUpper

/-- `s.strip().upper()` as a `String → String`. -/
def stripUpper (s : String) : String := String.mk (pyUpper (pyStrip s.data))

/-- `s.strip()` as a `String → String`. -/
def strip (s : String) : String := String.mk (pyStrip s.data)

/-- One step of Python `s.replace(pat, "")`: scan left to right, skip each
non-overlapping occurrence of `pat`, continue after it.  `fuel` (the length
of the scanned list at the top call) only drives structural recursion. -/
def pyReplaceGo (pat : List Char) : Nat → List Char → List Char
  | _, [] => []
  | 0, cs => cs
  | fuel + 1, c :: rest =>
    if pat ≠ [] ∧ pat.isPrefixOf (c :: rest) then
      pyReplaceGo pat fuel ((c :: rest).drop pat.length)
    else
      c :: pyReplaceGo pat fuel rest

/-- Python `s.replace(pat, "")` on character lists. -/
def pyReplace (pat cs : List Char) : List Char := pyReplaceGo pat cs.length cs

/-- Python `"\n".join(l)`. -/
def joinNl : List String → String
  | [] => ""
  | [s] => s
  | s :: rest => s ++ "\n" ++ joinNl rest

/-- `next((m.content for m in reversed(state["messages"]) if
isinstance(m, HumanMessage)), "")` — the backward scan for the latest
user-authored message, with `""` as the default. -/
def lastUser (msgs : List Msg) : String :=
  ((msgs.reverse.find? Msg.isHuman).map Msg.content).getD ""

/-- The three recognized route labels of the intent classifier. -/
def recognizedLabels : List String := ["SEND_EMAIL", "SEARCH_REQUIRED", "NO_SEARCH"]

/-- Lines 114–116 of `src/app.py`: normalize the raw classifier output
(`.strip().upper()`) and coerce anything outside the fixed label set to
`"NO_SEARCH"`. -/
def normalizeDecision (raw : String) : String :=
  let decision := stripUpper raw
  if decision ∈ recognizedLabels then decision else "NO_SEARCH"

/-- NODE 0, `decide_email_or_search` (src/app.py:102-118).  `classify` is
the Mistral call over the fixed classification instruction and the latest
user message; the node appends one `SystemMessage` carrying the final
decision label. -/
def decide_email_or_search (classify : String → String) (msgs : List Msg) : List Msg :=
  msgs ++ [Msg.system (normalizeDecision (classify (lastUser msgs)))]

/-- `send_email_tool` (src/app.py:85-97): the SendGrid call either returns
a status code or raises; the provider outcome is the `Except` argument and
both cases are rendered as the returned text — the `try/except` never lets
the exception escape. -/
def send_email_tool (outcome : Except String Nat) : String :=
  match outcome with
  | .ok code => "Email sent successfully (status " ++ toString code ++ ")."
  | .error e => "Error sending email: " ++ e

/-- `tavily_search_node` (src/app.py:181-186): query the Search capability
with the latest user message and `max_results=3`, join the snippet texts
with newlines, append one `SystemMessage` prefixed by the marker. -/
def tavily_search_node (search : String → Nat → List String) (msgs : List Msg) : List Msg :=
  let question := lastUser msgs
  let clean_summary := joinNl (search question 3)
  msgs ++ [Msg.system ("SEARCH_RESULT: " ++ clean_summary)]

/-- Opening brace, written by code point to keep brace characters out of
literals. -/
def lbrace : Char := Char.ofNat 123

/-- Closing brace. -/
def rbrace : Char := Char.ofNat 125

/-- Backslash. -/
def bslash : Char := Char.ofNat 92

/-- Double quote. -/
def quoteC : Char := Char.ofNat 34

/-- Single quote (apostrophe). -/
def aposC : Char := Char.ofNat 39

/-- `re.search(r"\{.*\}", llm_output, re.DOTALL)`: the leftmost match
starts at the first `{`; the greedy `.*` runs to the last `}` of the whole
text, so the matched span goes from the first `{` to the last `}` and the
match exists exactly when some `}` follows the first `{`. -/
def braceSpanL (cs : List Char) : Option (List Char) :=
  let fromBrace := cs.dropWhile (fun c => c != lbrace)
  let span := (fromBrace.reverse.dropWhile (fun c => c != rbrace)).reverse
  if span.isEmpty then none else some span

/-- The whitespace `json.loads` (and the Python tokenizer) accepts between
tokens: space, tab, newline, carriage return. -/
def tokWs (c : Char) : Bool := c.toNat = 32 || c.toNat = 9 || c.toNat = 10 || c.toNat = 13

/-- Parser mode for the flat string-object fragment of `json.loads` /
`ast.literal_eval`: before the object, between members, inside a key or a
value (with the active quote character and the accumulated text), after a
backslash, around the colon and after the closing brace. -/
inductive PMode where
  | start
  | preKey
  | afterComma
  | inKey (q : Char) (acc : List Char)
  | keyEsc (q : Char) (acc : List Char)
  | preColon (k : List Char)
  | preVal (k : List Char)
  | inVal (q : Char) (k : List Char) (acc : List Char)
  | valEsc (q : Char) (k : List Char) (acc : List Char)
  | afterVal
  | objDone
deriving DecidableEq

/-- Character-at-a-time parser for one flat object whose keys and values
are quoted strings: the fragment the extraction prompt demands.  `qs` is
the set of admissible quote characters (`"` for JSON; `"` and `'` for
Python literals), `tc` whether a trailing comma before `}` is accepted
(Python yes, JSON no), `esc` the escape table.  Raw control characters
inside a string are rejected, as both library parsers reject them. -/
def flatGo (qs : List Char) (tc : Bool) (esc : Char → Option Char) :
    List (String × String) → PMode → List Char → Option (List (String × String))
  | fields, m, [] => match m with | .objDone => some fields | _ => none
  | fields, m, c :: rest =>
    match m with
    | .start =>
      if tokWs c then flatGo qs tc esc fields .start rest
      else if c = lbrace then flatGo qs tc esc fields .preKey rest
      else none
    | .preKey =>
      if tokWs c then flatGo qs tc esc fields .preKey rest
      else if c ∈ qs then flatGo qs tc esc fields (.inKey c []) rest
      else if c = rbrace then flatGo qs tc esc fields .objDone rest
      else none
    | .afterComma =>
      if tokWs c then flatGo qs tc esc fields .afterComma rest
      else if c ∈ qs then flatGo qs tc esc fields (.inKey c []) rest
      else if c = rbrace then (if tc then flatGo qs tc esc fields .objDone rest else none)
      else none
    | .inKey q acc =>
      if c = q then flatGo qs tc esc fields (.preColon acc) rest
      else if c = bslash then flatGo qs tc esc fields (.keyEsc q acc) rest
      else if c.toNat < 32 then none
      else flatGo qs tc esc fields (.inKey q (acc ++ [c])) rest
    | .keyEsc q acc =>
      match esc c with
      | some d => flatGo qs tc esc fields (.inKey q (acc ++ [d])) rest
      | none => none
    | .preColon k =>
      if tokWs c then flatGo qs tc esc fields (.preColon k) rest
      else if c = ':' then flatGo qs tc esc fields (.preVal k) rest
      else none
    | .preVal k =>
      if tokWs c then flatGo qs tc esc fields (.preVal k) rest
      else if c ∈ qs then flatGo qs tc esc fields (.inVal c k []) rest
      else none
    | .inVal q k acc =>
      if c = q then flatGo qs tc esc (fields ++ [(String.mk k, String.mk acc)]) .afterVal rest
      else if c = bslash then flatGo qs tc esc fields (.valEsc q k acc) rest
      else if c.toNat < 32 then none
      else flatGo qs tc esc fields (.inVal q k (acc ++ [c])) rest
    | .valEsc q k acc =>
      match esc c with
      | some d => flatGo qs tc esc fields (.inVal q k (acc ++ [d])) rest
      | none => none
    | .afterVal =>
      if tokWs c then flatGo qs tc esc fields .afterVal rest
      else if c = ',' then flatGo qs tc esc fields .afterComma rest
      else if c = rbrace then flatGo qs tc esc fields .objDone rest
      else none
    | .objDone =>
      if tokWs c then flatGo qs tc esc fields .objDone rest
      else none

/-- The JSON escape table restricted to single-character escapes (`\uXXXX`
is outside the modelled fragment). -/
def jsonEsc (c : Char) : Option Char :=
  if c = quoteC then some c
  else if c = bslash then some c
  else if c = '/' then some c
  else if c = 'n' then some (Char.ofNat 10)
  else if c = 't' then some (Char.ofNat 9)
  else if c = 'r' then some (Char.ofNat 13)
  else if c = 'b' then some (Char.ofNat 8)
  else if c = 'f' then some (Char.ofNat 12)
  else none

/-- The Python string-literal escapes shared with JSON, plus the escaped
single quote. -/
def pyEsc (c : Char) : Option Char :=
  if c = aposC then some c else jsonEsc c

/-- `json.loads`, modelled on the flat string-object fragment: double
quotes only, no trailing comma. -/
def json_loads_flat (cs : List Char) : Option (List (String × String)) :=
  flatGo [quoteC] false jsonEsc [] .start cs

/-- `ast.literal_eval`, modelled on the flat string-object fragment:
single or double quotes, trailing comma tolerated. -/
def literal_eval_flat (cs : List Char) : Option (List (String × String)) :=
  flatGo [quoteC, aposC] true pyEsc [] .start cs

/-- Lines 155–163 of `src/app.py`: `json.loads(json_text)`, and on
`JSONDecodeError` the single relaxed fallback `ast.literal_eval`. -/
def parseJsonWithFallback (cs : List Char) : Option (List (String × String)) :=
  match json_loads_flat cs with
  | some data => some data
  | none => literal_eval_flat cs

/-- `data.get(k)` for the parsed object: Python builds a `dict`, so a
repeated key keeps its last value. -/
def jget (data : List (String × String)) (k : String) : Option String :=
  data.reverse.lookup k

/-- `if not to_email or "@" not in to_email` (src/app.py:170): the
recipient is missing, the empty string (falsy), or has no `@`. -/
def invalidRecipient (to_email : Option String) : Bool :=
  match to_email with
  | none => true
  | some t => t = "" || ¬ '@' ∈ t.data

/-- The result of the email branch: the new message list, and the
`send_email_tool` invocation it performed (`none` = no send). -/
structure ExtractResult where
  messages : List Msg
  sendCall : Option (String × String × String)
deriving DecidableEq

/-- NODE 1, `extract_email_parameters` (src/app.py:123-176).  `extractGen`
is the Mistral call over the fixed JSON-extraction instruction and the
latest user message; `parseErr` the rendering of the exception both
parsers failing produces (`f"...: {e}"`); `emailOutcome` the SendGrid
outcome used when a send happens.  The node locates the brace span,
parses strictly then with the relaxed fallback, validates the recipient,
and appends exactly one `SystemMessage` describing the outcome. -/
def extract_email_parameters (extractGen : String → String) (parseErr : String)
    (emailOutcome : Except String Nat) (msgs : List Msg) : ExtractResult :=
  let last_user := lastUser msgs
  let llm_output := strip (extractGen last_user)
  match braceSpanL llm_output.data with
  | none =>
    ⟨msgs ++ [Msg.system "SEND_EMAIL_ERROR: Could not extract JSON from LLM."], none⟩
  | some span =>
    let json_text := pyStrip span
    match parseJsonWithFallback json_text with
    | none =>
      ⟨msgs ++ [Msg.system ("SEND_EMAIL_ERROR: JSON parse error: " ++ parseErr)], none⟩
    | some data =>
      let to_email := jget data "to"
      let subject := (jget data "subject").getD "No Subject"
      let content := (jget data "content").getD ""
      if invalidRecipient to_email then
        ⟨msgs ++ [Msg.system "SEND_EMAIL_ERROR: Missing or invalid 'to' email address."], none⟩
      else
        let t := to_email.getD ""
        let result_text := send_email_tool emailOutcome
        ⟨msgs ++ [Msg.system result_text], some (t, subject, content)⟩

/-- A role-tagged prompt turn handed to the chat-completion capability. -/
structure PromptMsg where
  role : String
  content : String
deriving DecidableEq

/-- The marker prefix of a search payload. -/
def searchMarker : String := "SEARCH_RESULT:"

/-- The fixed conservative system instruction `llm_call` inserts at
position 0 of the prompt (src/app.py:198). -/
def answerInstruction : String :=
  "You are a precise AI assistant. Do NOT hallucinate. If unsure, respond: 'I am not sure.'"

/-- The system-role turn built from a message whose content begins with the
search marker: the marker is removed (`replace(marker, "")`), the residue
stripped, and the fixed preamble prepended (src/app.py:193-197). -/
def searchTurn (content : String) : PromptMsg :=
  ⟨"system", "Here is verified search info:\n" ++ String.mk (pyStrip (pyReplace searchMarker.data content.data))⟩

/-- The prompt turns one transcript message contributes in the `llm_call`
loop (src/app.py:190-197): a `HumanMessage` contributes a user turn, and —
by the second, non-exclusive `if` — any message whose content starts with
the marker also contributes the search system turn. -/
def cleanContribution (m : Msg) : List PromptMsg :=
  (if m.isHuman then [⟨"user", m.content⟩] else []) ++
    (if searchMarker.data.isPrefixOf m.content.data then [searchTurn m.content] else [])

/-- The full prompt `llm_call` sends: the loop's accumulated turns with the
fixed instruction inserted at position 0 (src/app.py:189-198). -/
def llmPrompt (msgs : List Msg) : List PromptMsg :=
  ⟨"system", answerInstruction⟩ :: msgs.flatMap cleanContribution

/-- `llm_call` (src/app.py:188-201): build the cleaned prompt, invoke the
chat completion (`answerGen`), append one `AIMessage` with the raw
response text. -/
def llm_call (answerGen : List PromptMsg → String) (msgs : List Msg) : List Msg :=
  msgs ++ [Msg.ai (answerGen (llmPrompt msgs))]

/-- The graph's nodes as named by `builder.add_node` (src/app.py:206-210). -/
inductive Node where
  | decide
  | extract_email
  | search_node
  | llm_call
deriving DecidableEq, Repr

/-- The external capabilities one `agent.invoke` consumes. -/
structure Oracles where
  classify : String → String
  extractGen : String → String
  parseErr : String
  emailOutcome : Except String Nat
  search : String → Nat → List String
  answerGen : List PromptMsg → String

/-- Run one graph node on the state. -/
def runNode (o : Oracles) (n : Node) (msgs : List Msg) : List Msg :=
  match n with
  | .decide => decide_email_or_search o.classify msgs
  | .extract_email => (extract_email_parameters o.extractGen o.parseErr o.emailOutcome msgs).messages
  | .search_node => tavily_search_node o.search msgs
  | .llm_call => llm_call o.answerGen msgs

/-- The messages a node appends to the state it runs on. -/
def stepDelta (o : Oracles) (n : Node) (msgs : List Msg) : List Msg :=
  (runNode o n msgs).drop msgs.length

/-- The routing key of the conditional edge out of `decide`:
`lambda s: s["messages"][-1].content` (src/app.py:215); `none` models the
`IndexError` on an empty list. -/
def routeKey (msgs : List Msg) : Option String :=
  msgs.getLast?.map Msg.content

/-- `_add_messages` (src/app.py:23-24), the reducer declared on the
`messages` channel (`Annotated[List[BaseMessage], _add_messages]`,
line 27): on every node write the channel becomes `left + right`. -/
def _add_messages (left right : List Msg) : List Msg := left ++ right

/-- One LangGraph superstep on the messages channel.  Every node of
src/app.py receives the channel's list, appends its message in place and
returns that same full list, so when the executor folds the returned
update into the channel with `_add_messages`, both arguments are the
node's grown list: the new channel value is the node's result followed by
itself, duplicating the prior transcript at every node write. -/
def applyNode (o : Oracles) (n : Node) (cur : List Msg) : List Msg :=
  _add_messages (runNode o n cur) (runNode o n cur)

/-- One `agent.invoke` (src/app.py:212-224): `START → decide`; from
`decide` the conditional edge dispatches on the last message's content
through the dict `{"SEND_EMAIL": extract_email, "SEARCH_REQUIRED":
search_node, "NO_SEARCH": llm_call}`; `search_node → llm_call`;
`extract_email` and `llm_call` have no outgoing edge and end the run.
Every visited node's write goes through the `_add_messages` reducer
(`applyNode`).  Returns the visited nodes in order and the final channel
state; `none` models the executor's error on a key missing from the
dict. -/
def agentInvoke (o : Oracles) (msgs : List Msg) : Option (List Node × List Msg) :=
  let st1 := applyNode o .decide msgs
  match routeKey st1 with
  | none => none
  | some key =>
    if key = "SEND_EMAIL" then
      some ([.decide, .extract_email], applyNode o .extract_email st1)
    else if key = "SEARCH_REQUIRED" then
      some ([.decide, .search_node, .llm_call],
        applyNode o .llm_call (applyNode o .search_node st1))
    else if key = "NO_SEARCH" then
      some ([.decide, .llm_call], applyNode o .llm_call st1)
    else none

/-- One serialized message record: `{"type": m.type, "content": m.content}`
(src/app.py:43). -/
structure StoredMsg where
  type : String
  content : String
deriving DecidableEq

/-- The serialized form of one chat: `{"title": ..., "messages": [...]}`. -/
structure StoredChat where
  title : String
  messages : List StoredMsg
deriving DecidableEq

/-- One in-memory chat: its messages and its (possibly absent) title. -/
structure Chat where
  messages : List Msg
  title : Option String
deriving DecidableEq

/-- The message part of `save_chats` (src/app.py:43): each message becomes
its type tag and content. -/
def saveMessages (msgs : List Msg) : List StoredMsg :=
  msgs.map fun m => ⟨m.type, m.content⟩

/-- The message part of `load_chats` (src/app.py:56-62): `"human"` becomes
a `HumanMessage`, `"ai"` an `AIMessage`, anything else a `SystemMessage`. -/
def loadMessages (data : List StoredMsg) : List Msg :=
  data.map fun m =>
    if m.type = "human" then Msg.human m.content
    else if m.type = "ai" then Msg.ai m.content
    else Msg.system m.content

/-- `save_chats` (src/app.py:36-46) on the keyed chat store (the JSON file
write itself is I/O outside the model; `json.dump`/`json.load` with
`ensure_ascii=False` preserve the strings).  A chat with no title gets the
default `f"Chat {chat_id[:6]}"`. -/
def save_chats (chats : List (String × Chat)) : List (String × StoredChat) :=
  chats.map fun p =>
    (p.1, ⟨p.2.title.getD ("Chat " ++ p.1.take 6), saveMessages p.2.messages⟩)

/-- `load_chats` (src/app.py:48-64) on already-parsed stored data (the
missing-file branch returns the empty store and is outside the model). -/
def load_chats (data : List (String × StoredChat)) : List (String × Chat) :=
  data.map fun p => (p.1, ⟨loadMessages p.2.messages, some p.2.title⟩)

/-! ## Shared lemmas -/

/-- Rebuilding a string from its own characters is the identity. -/
theorem mk_data (s : String) : String.mk s.data = s := rfl

/-- The normalized decision always lies in the recognized label set. -/
theorem normalizeDecision_mem (raw : String) : normalizeDecision raw ∈ recognizedLabels := by
  simp only [normalizeDecision]
  split
  · assumption
  · simp [recognizedLabels]

/-- The routing key after appending a system message is that message's
content. -/
theorem routeKey_append (msgs : List Msg) (d : String) :
    routeKey (msgs ++ [Msg.system d]) = some d := by
  simp [routeKey, List.getLast?_concat, Msg.content]

/-- The email branch always appends exactly one system message. -/
theorem extract_appends_one (g : String → String) (p : String) (oc : Except String Nat)
    (msgs : List Msg) :
    ∃ m, (extract_email_parameters g p oc msgs).messages = msgs ++ [Msg.system m] := by
  unfold extract_email_parameters
  dsimp only
  split
  · exact ⟨_, rfl⟩
  · split
    · exact ⟨_, rfl⟩
    · split
      · exact ⟨_, rfl⟩
      · exact ⟨_, rfl⟩

/-- Every graph node appends exactly one message to the state it runs on. -/
theorem runNode_single (o : Oracles) (n : Node) (msgs : List Msg) :
    ∃ m, runNode o n msgs = msgs ++ [m] := by
  cases n with
  | decide => exact ⟨_, rfl⟩
  | extract_email =>
    obtain ⟨m, hm⟩ := extract_appends_one o.extractGen o.parseErr o.emailOutcome msgs
    exact ⟨Msg.system m, hm⟩
  | search_node => exact ⟨_, rfl⟩
  | llm_call => exact ⟨_, rfl⟩

/-- A node's run is the input state followed by the node's message delta. -/
theorem runNode_eq_append (o : Oracles) (n : Node) (msgs : List Msg) :
    runNode o n msgs = msgs ++ stepDelta o n msgs := by
  obtain ⟨m, hm⟩ := runNode_single o n msgs
  rw [stepDelta, hm, List.drop_left]

/-- `find?` skips a block in which every element fails the predicate. -/
theorem find?_append_of_none {α : Type} (P : α → Bool) (l₁ l₂ : List α)
    (h : ∀ x ∈ l₁, P x = false) : (l₁ ++ l₂).find? P = l₂.find? P := by
  induction l₁ with
  | nil => rfl
  | cons a l ih =>
    simp only [List.cons_append, List.find?]
    rw [h a (by simp)]
    exact ih fun x hx => h x (by simp [hx])

/-! ## Claim theorems -/

/-- C4: for every raw classifier output, trimming and uppercasing followed
by the membership test coerces anything outside the recognized label set to
the safe default `NO_SEARCH` (never the email branch), and the decide node
appends exactly one system message carrying the final decision label. -/
theorem decide_defaults_to_no_search (classify : String → String) (msgs : List Msg) :
    decide_email_or_search classify msgs
      = msgs ++ [Msg.system (normalizeDecision (classify (lastUser msgs)))] ∧
    (stripUpper (classify (lastUser msgs)) ∉ recognizedLabels →
      normalizeDecision (classify (lastUser msgs)) = "NO_SEARCH") ∧
    (stripUpper (classify (lastUser msgs)) ∈ recognizedLabels →
      normalizeDecision (classify (lastUser msgs)) = stripUpper (classify (lastUser msgs))) := by
  refine ⟨rfl, fun h => ?_, fun h => ?_⟩
  · simp only [normalizeDecision]
    rw [if_neg h]
  · simp only [normalizeDecision]
    rw [if_pos h]

/-- C4 witness: the off-label output `" maybe "` is coerced to
`NO_SEARCH`, appended as the single system message. -/
theorem decide_defaults_to_no_search_witness :
    stripUpper " maybe " ∉ recognizedLabels ∧
    decide_email_or_search (fun _ => " maybe ") [] = [Msg.system "NO_SEARCH"] := by
  have h := decide_defaults_to_no_search (fun _ => " maybe ") []
  refine ⟨by decide, ?_⟩
  rw [h.1, h.2.1 (by decide)]
  rfl

/-- C9: the backward scan returns `""` on a transcript with no user
message, and returns the content of the most recent `HumanMessage` (the
one with no human message after it) when one exists. -/
theorem last_user_backward_scan (msgs : List Msg) :
    ((∀ m ∈ msgs, m.isHuman = false) → lastUser msgs = "") ∧
    (∀ pre m suf, msgs = pre ++ m :: suf → m.isHuman = true →
      (∀ x ∈ suf, x.isHuman = false) → lastUser msgs = m.content) := by
  constructor
  · intro h
    unfold lastUser
    rw [List.find?_eq_none.mpr fun x hx => by simp [h x (List.mem_reverse.mp hx)]]
    rfl
  · intro pre m suf hsplit hm hsuf
    unfold lastUser
    subst hsplit
    rw [show (pre ++ m :: suf).reverse = suf.reverse ++ (m :: pre.reverse) by simp]
    rw [find?_append_of_none _ _ _ fun x hx => hsuf x (List.mem_reverse.mp hx)]
    rw [List.find?_cons_of_pos _ hm]
    rfl

/-- C9 witness: on `[system, human "q", system]` the scan returns `"q"`,
via the theorem at `pre = [system "a"]`, `suf = [system "b"]`. -/
theorem last_user_backward_scan_witness :
    lastUser [Msg.system "a", Msg.human "q", Msg.system "b"] = "q" :=
  (last_user_backward_scan [Msg.system "a", Msg.human "q", Msg.system "b"]).2
    [Msg.system "a"] (Msg.human "q") [Msg.system "b"] rfl rfl (by decide)

/-- C7: serializing a transcript to `(type, content)` records and loading
it back is the identity, for every sequence of human/ai/system messages;
at the store level the keyed chats keep their keys and messages. -/
theorem chat_store_round_trip :
    (∀ msgs : List Msg, loadMessages (saveMessages msgs) = msgs) ∧
    (∀ chats : List (String × Chat),
      (load_chats (save_chats chats)).map (fun p => (p.1, p.2.messages))
        = chats.map fun p => (p.1, p.2.messages)) := by
  have hmsg : ∀ msgs : List Msg, loadMessages (saveMessages msgs) = msgs := by
    intro msgs
    induction msgs with
    | nil => rfl
    | cons m rest ih =>
      cases m <;> simp [saveMessages, loadMessages, Msg.type, Msg.content] at ih ⊢ <;>
        simpa [saveMessages, loadMessages] using ih
  refine ⟨hmsg, fun chats => ?_⟩
  induction chats with
  | nil => rfl
  | cons c rest ih =>
    simp [save_chats, load_chats] at ih ⊢
    exact ⟨hmsg c.2.messages, ih⟩

/-- C3 counterexample: with zero search results the node appends the bare
marker message `"SEARCH_RESULT: "`; removing the marker and stripping
leaves nothing, so the appended message does not state that no results
were found — it states nothing at all. -/
theorem search_empty_results_counterexample :
    tavily_search_node (fun _ _ => []) [Msg.human "What is new?"]
      = [Msg.human "What is new?", Msg.system "SEARCH_RESULT: "] ∧
    pyStrip (pyReplace searchMarker.data "SEARCH_RESULT: ".data) = [] := by
  exact ⟨rfl, by decide⟩

/-- C3 (amended): the search node queries the Search capability with the
latest user message and a result bound of 3 and appends one system message
of the marker followed by the newline-joined snippets; on zero results it
appends the marker with an empty summary (it neither fails nor appends
nothing, but the message does not state that no results were found). -/
theorem search_node_behavior (search : String → Nat → List String) (msgs : List Msg) :
    tavily_search_node search msgs
      = msgs ++ [Msg.system ("SEARCH_RESULT: " ++ joinNl (search (lastUser msgs) 3))] ∧
    (search (lastUser msgs) 3 = [] →
      tavily_search_node search msgs = msgs ++ [Msg.system "SEARCH_RESULT: "]) := by
  refine ⟨rfl, fun h => ?_⟩
  unfold tavily_search_node
  dsimp only
  rw [h]
  rfl

/-- C3 witness: the empty-result case of the amended theorem at a concrete
transcript. -/
theorem search_node_behavior_witness :
    tavily_search_node (fun _ _ => []) [Msg.human "q"]
      = [Msg.human "q", Msg.system "SEARCH_RESULT: "] := by
  have h := (search_node_behavior (fun _ _ => []) [Msg.human "q"]).2 rfl
  exact h.trans rfl

/-- C10: after the decide node runs, the last message it returns is a
system message whose content is one of the three recognized labels, and
the same label is still the last element of the channel after the
`_add_messages` reducer folds the write in, so the conditional dispatch
keyed on the last message's content always finds a branch: `agentInvoke`
never hits its unmatched-key arm. -/
theorem decide_dispatch_total (o : Oracles) (msgs : List Msg) :
    ∃ d, (runNode o .decide msgs).getLast? = some (Msg.system d) ∧
      d ∈ recognizedLabels ∧
      routeKey (runNode o .decide msgs) = some d ∧
      routeKey (applyNode o .decide msgs) = some d ∧
      (agentInvoke o msgs).isSome = true := by
  have hkey : routeKey (applyNode o .decide msgs)
      = some (normalizeDecision (o.classify (lastUser msgs))) := by
    show routeKey
        ((msgs ++ [Msg.system (normalizeDecision (o.classify (lastUser msgs)))])
          ++ (msgs ++ [Msg.system (normalizeDecision (o.classify (lastUser msgs)))]))
      = some (normalizeDecision (o.classify (lastUser msgs)))
    rw [← List.append_assoc]
    exact routeKey_append _ _
  refine ⟨normalizeDecision (o.classify (lastUser msgs)),
    List.getLast?_concat _, normalizeDecision_mem _, routeKey_append _ _, hkey, ?_⟩
  have hmem := normalizeDecision_mem (o.classify (lastUser msgs))
  simp only [recognizedLabels, List.mem_cons, List.mem_singleton] at hmem
  unfold agentInvoke
  dsimp only
  rw [hkey]
  rcases hmem with h | h | h | h
  · simp [h]
  · simp [h]
  · simp [h]
  · simp at h

/-- A concrete oracle bundle for concrete-input theorems. -/
def demoOracles : Oracles where
  classify := fun _ => "NO_SEARCH"
  extractGen := fun _ => ""
  parseErr := "parse error"
  emailOutcome := .ok 202
  search := fun _ _ => ["snippet"]
  answerGen := fun _ => "4"

/-- C1: the turn-delta invariant fails on the code.  On the one-message
transcript `[Human "What is 2+2?"]` with the classifier answering
`NO_SEARCH` and generation answering `"4"`, the ordered concatenation of
the node-appended messages would end the turn at
`[Human, System NO_SEARCH, AI 4]`; but each of the two node writes goes
through the `_add_messages` reducer against the node's own returned full
list, so the executor ends the turn with the prior transcript duplicated
at every write — ten messages, not three. -/
theorem router_reducer_duplication :
    agentInvoke demoOracles [Msg.human "What is 2+2?"]
      = some ([Node.decide, Node.llm_call],
          [Msg.human "What is 2+2?", Msg.system "NO_SEARCH",
           Msg.human "What is 2+2?", Msg.system "NO_SEARCH", Msg.ai "4",
           Msg.human "What is 2+2?", Msg.system "NO_SEARCH",
           Msg.human "What is 2+2?", Msg.system "NO_SEARCH", Msg.ai "4"]) ∧
    ([Msg.human "What is 2+2?", Msg.system "NO_SEARCH",
      Msg.human "What is 2+2?", Msg.system "NO_SEARCH", Msg.ai "4",
      Msg.human "What is 2+2?", Msg.system "NO_SEARCH",
      Msg.human "What is 2+2?", Msg.system "NO_SEARCH", Msg.ai "4"]
        : List Msg)
      ≠ [Msg.human "What is 2+2?", Msg.system "NO_SEARCH", Msg.ai "4"] := by
  exact ⟨by decide, by decide⟩

/-- C2: the answer node's prompt starts with the fixed conservative system
instruction; the remaining turns are each transcript message's
contribution in order, where a user message contributes a user-role turn,
a system message contributes the marker-stripped, preamble-prefixed
system-role turn exactly when its content starts with `SEARCH_RESULT:`
and contributes nothing otherwise; and the node appends exactly one
assistant message carrying the raw response to the prompt. -/
theorem answer_prompt_reconstruction (answerGen : List PromptMsg → String) (msgs : List Msg) :
    llm_call answerGen msgs = msgs ++ [Msg.ai (answerGen (llmPrompt msgs))] ∧
    (llmPrompt msgs).head? = some ⟨"system", answerInstruction⟩ ∧
    llmPrompt msgs = ⟨"system", answerInstruction⟩ :: msgs.flatMap cleanContribution ∧
    (∀ c : String, cleanContribution (Msg.human c)
        = ⟨"user", c⟩ ::
          (if searchMarker.data.isPrefixOf c.data = true then [searchTurn c] else [])) ∧
    (∀ c : String, cleanContribution (Msg.system c)
        = if searchMarker.data.isPrefixOf c.data = true then [searchTurn c] else []) ∧
    (∀ c : String, searchTurn c
        = ⟨"system", "Here is verified search info:\n"
            ++ String.mk (pyStrip (pyReplace searchMarker.data c.data))⟩) :=
  ⟨rfl, rfl, rfl, fun _ => rfl, fun _ => rfl, fun _ => rfl⟩

/-- C5: in the email branch, if no brace span is found, or both the strict
parse and the relaxed fallback fail, or the extracted recipient is missing,
empty or lacks `@`, then no send call happens and the only mutation is the
matching appended system error message. -/
theorem email_branch_failures_no_send (g : String → String) (p : String)
    (oc : Except String Nat) (msgs : List Msg) :
    (braceSpanL (strip (g (lastUser msgs))).data = none →
      extract_email_parameters g p oc msgs
        = ⟨msgs ++ [Msg.system "SEND_EMAIL_ERROR: Could not extract JSON from LLM."], none⟩) ∧
    (∀ span, braceSpanL (strip (g (lastUser msgs))).data = some span →
      parseJsonWithFallback (pyStrip span) = none →
      extract_email_parameters g p oc msgs
        = ⟨msgs ++ [Msg.system ("SEND_EMAIL_ERROR: JSON parse error: " ++ p)], none⟩) ∧
    (∀ span data, braceSpanL (strip (g (lastUser msgs))).data = some span →
      parseJsonWithFallback (pyStrip span) = some data →
      invalidRecipient (jget data "to") = true →
      extract_email_parameters g p oc msgs
        = ⟨msgs ++ [Msg.system "SEND_EMAIL_ERROR: Missing or invalid 'to' email address."],
            none⟩) := by
  refine ⟨fun h => ?_, fun span h1 h2 => ?_, fun span data h1 h2 h3 => ?_⟩
  · unfold extract_email_parameters
    dsimp only
    rw [h]
  · unfold extract_email_parameters
    dsimp only
    rw [h1]
    dsimp only
    rw [h2]
  · unfold extract_email_parameters
    dsimp only
    rw [h1]
    dsimp only
    rw [h2]
    dsimp only
    rw [if_pos h3]

/-- C5 witness: a concrete generation output with a parseable payload whose
recipient has no `@` takes the invalid-recipient path of the theorem: no
send, one error message. -/
theorem email_branch_failures_no_send_witness :
    braceSpanL (strip "Sure: \x7b\"to\": \"nobody\", \"content\": \"hi\"\x7d").data
        = some ("\x7b\"to\": \"nobody\", \"content\": \"hi\"\x7d".data) ∧
    parseJsonWithFallback (pyStrip ("\x7b\"to\": \"nobody\", \"content\": \"hi\"\x7d".data))
        = some [("to", "nobody"), ("content", "hi")] ∧
    invalidRecipient (jget [("to", "nobody"), ("content", "hi")] "to") = true ∧
    extract_email_parameters
        (fun _ => "Sure: \x7b\"to\": \"nobody\", \"content\": \"hi\"\x7d") "e" (.ok 202)
        [Msg.human "email nobody"]
      = ⟨[Msg.human "email nobody",
          Msg.system "SEND_EMAIL_ERROR: Missing or invalid 'to' email address."], none⟩ := by
  refine ⟨by decide, by decide, by decide, ?_⟩
  exact (email_branch_failures_no_send
      (fun _ => "Sure: \x7b\"to\": \"nobody\", \"content\": \"hi\"\x7d") "e" (.ok 202)
      [Msg.human "email nobody"]).2.2
    ("\x7b\"to\": \"nobody\", \"content\": \"hi\"\x7d".data)
    [("to", "nobody"), ("content", "hi")] (by decide) (by decide) (by decide)

/-- C8: on the success path of the email branch the SendGrid outcome —
delivery fault or success — is always rendered as the appended system
message: a fault becomes `"Error sending email: "` plus the provider error
detail (the exception is consumed by the `try/except`, never re-raised),
a success becomes the success text with the status code. -/
theorem email_delivery_fault_contained (g : String → String) (p : String)
    (oc : Except String Nat) (msgs : List Msg) (span : List Char)
    (data : List (String × String)) :
    braceSpanL (strip (g (lastUser msgs))).data = some span →
    parseJsonWithFallback (pyStrip span) = some data →
    invalidRecipient (jget data "to") = false →
    (extract_email_parameters g p oc msgs).messages
        = msgs ++ [Msg.system (send_email_tool oc)] ∧
    (∀ e, oc = .error e → send_email_tool oc = "Error sending email: " ++ e) ∧
    (∀ n, oc = .ok n →
      send_email_tool oc = "Email sent successfully (status " ++ toString n ++ ").") := by
  intro h1 h2 h3
  refine ⟨?_, fun e he => by rw [he]; rfl, fun n hn => by rw [hn]; rfl⟩
  unfold extract_email_parameters
  dsimp only
  rw [h1]
  dsimp only
  rw [h2]
  dsimp only
  rw [if_neg (by simp [h3])]

/-- C8 witness: a concrete delivery fault (`"boom"`) on a valid payload is
rendered into the transcript with the provider detail. -/
theorem email_delivery_fault_contained_witness :
    (extract_email_parameters (fun _ => "\x7b\"to\": \"a@b.c\", \"content\": \"hi\"\x7d")
        "e" (.error "boom") [Msg.human "mail a@b.c"]).messages
      = [Msg.human "mail a@b.c", Msg.system "Error sending email: boom"] := by
  have h := (email_delivery_fault_contained
      (fun _ => "\x7b\"to\": \"a@b.c\", \"content\": \"hi\"\x7d") "e" (.error "boom")
      [Msg.human "mail a@b.c"]
      ("\x7b\"to\": \"a@b.c\", \"content\": \"hi\"\x7d".data)
      [("to", "a@b.c"), ("content", "hi")] (by decide) (by decide) (by decide))
  rw [h.1, h.2.1 "boom" rfl]
  rfl

/-- The canonical well-formed extraction payload carrying a recipient, a
subject and a body, as the extraction prompt demands it. -/
def renderEmail (toEmail subject content : String) : String :=
  "\x7b\"to\": \"" ++ toEmail ++ "\", \"subject\": \"" ++ subject ++ "\", \"content\": \""
    ++ content ++ "\"\x7d"

/-- The canonical well-formed payload with the subject field absent. -/
def renderEmailNoSubject (toEmail content : String) : String :=
  "\x7b\"to\": \"" ++ toEmail ++ "\", \"content\": \"" ++ content ++ "\"\x7d"

/-- A field value inside the modelled string fragment: no quote, no
backslash, no raw control character. -/
def cleanField (s : String) : Bool :=
  s.data.all fun c => c != quoteC && c != bslash && decide (32 ≤ c.toNat)

/-- C6 counterexample: a well-formed payload embedded in prose whose
trailing part contains a closing brace.  The brace span runs from the
first `{` to the *last* `}`, which lies in the prose, so both parses fail
and the extractor reports an error instead of recovering the enclosed
recipient, subject and body. -/
theorem extractor_prose_counterexample :
    ((fun _ => "Email: " ++ renderEmail "alice@example.com" "Hi" "Hello"
        ++ " (from \x7bme\x7d)" : String → String) ""
      = "Email: \x7b\"to\": \"alice@example.com\", \"subject\": \"Hi\", \"content\": \"Hello\"\x7d (from \x7bme\x7d)") ∧
    extract_email_parameters
        (fun _ => "Email: " ++ renderEmail "alice@example.com" "Hi" "Hello" ++ " (from \x7bme\x7d)")
        "Extra data" (.ok 202) [Msg.human "mail alice"]
      = ⟨[Msg.human "mail alice",
          Msg.system "SEND_EMAIL_ERROR: JSON parse error: Extra data"], none⟩ := by
  exact ⟨by decide, by decide⟩

/-- `dropWhile` consumes a whole block whose elements all satisfy the
predicate. -/
theorem dropWhile_append_all {α : Type} (P : α → Bool) (l₁ l₂ : List α)
    (h : ∀ a ∈ l₁, P a = true) : (l₁ ++ l₂).dropWhile P = l₂.dropWhile P := by
  induction l₁ with
  | nil => rfl
  | cons a l ih =>
    simp only [List.cons_append, List.dropWhile_cons, h a (by simp)]
    exact ih fun x hx => h x (by simp [hx])

/-- `dropWhile` over a block followed by a failing element stops at that
element at the latest. -/
theorem dropWhile_append_stop {α : Type} (P : α → Bool) (p : List α) (c : α) (r : List α)
    (hc : P c = false) :
    List.dropWhile P (p ++ c :: r) = p.dropWhile P ++ c :: r := by
  induction p with
  | nil => simp [List.dropWhile_cons, hc]
  | cons a l ih =>
    simp only [List.cons_append, List.dropWhile_cons]
    cases ha : P a <;> simp [ha, ih]

/-- Stripping around an embedded brace-delimited core trims only the
surrounding text: the core survives verbatim. -/
theorem pyStrip_embedded (p mid q : List Char) :
    pyStrip (p ++ (lbrace :: mid ++ [rbrace]) ++ q)
      = p.dropWhile pyWs ++ (lbrace :: mid ++ [rbrace]) ++ (q.reverse.dropWhile pyWs).reverse := by
  have hlb : pyWs lbrace = false := by decide
  have hrb : pyWs rbrace = false := by decide
  unfold pyStrip
  have h1 : List.dropWhile pyWs (p ++ (lbrace :: mid ++ [rbrace]) ++ q)
      = p.dropWhile pyWs ++ lbrace :: ((mid ++ [rbrace]) ++ q) := by
    rw [List.append_assoc]
    simpa [List.cons_append, List.append_assoc] using
      dropWhile_append_stop pyWs p lbrace ((mid ++ [rbrace]) ++ q) hlb
  rw [h1]
  have h2 : (p.dropWhile pyWs ++ lbrace :: ((mid ++ [rbrace]) ++ q)).reverse
      = q.reverse ++ rbrace :: (mid.reverse ++ (lbrace :: (p.dropWhile pyWs).reverse)) := by
    simp [List.reverse_append, List.append_assoc]
  rw [h2, dropWhile_append_stop pyWs q.reverse rbrace _ hrb]
  simp [List.reverse_append, List.append_assoc]

/-- The brace span of text around an embedded brace-delimited core, when
the leading text has no `{` and the trailing text no `}`, is exactly the
core. -/
theorem braceSpanL_embedded (p mid q : List Char)
    (hp : lbrace ∉ p) (hq : rbrace ∉ q) :
    braceSpanL (p ++ (lbrace :: mid ++ [rbrace]) ++ q) = some (lbrace :: mid ++ [rbrace]) := by
  unfold braceSpanL
  dsimp only
  have h1 : List.dropWhile (fun c => c != lbrace) (p ++ (lbrace :: mid ++ [rbrace]) ++ q)
      = lbrace :: ((mid ++ [rbrace]) ++ q) := by
    rw [List.append_assoc, List.cons_append,
      dropWhile_append_all _ p _ fun a ha => by
        simp only [bne_iff_ne, ne_eq, decide_eq_true_eq]
        exact fun h => hp (h ▸ ha)]
    · simp [List.dropWhile_cons]
  rw [h1]
  have h2 : (lbrace :: ((mid ++ [rbrace]) ++ q)).reverse
      = q.reverse ++ rbrace :: (mid.reverse ++ [lbrace]) := by
    simp [List.reverse_append, List.append_assoc]
  rw [h2, dropWhile_append_all _ q.reverse _ fun a ha => by
      simp only [bne_iff_ne, ne_eq, decide_eq_true_eq]
      exact fun h => hq (h ▸ List.mem_reverse.mp ha)]
  simp [List.dropWhile_cons, List.reverse_append]

/-- Unpacking `cleanField`: every character of the field differs from the
quote and backslash and is no control character. -/
theorem cleanField_spec (s : String) (h : cleanField s = true) :
    ∀ c ∈ s.data, c ≠ quoteC ∧ c ≠ bslash ∧ 32 ≤ c.toNat := by
  intro c hc
  have := List.all_eq_true.mp h c hc
  simpa [bne_iff_ne, and_assoc] using this

/-- The parser consumes a clean field inside a quoted value in one sweep:
it accumulates every character up to the closing quote and records the
member. -/
theorem flatGo_inVal_clean (qs : List Char) (tc : Bool) (esc : Char → Option Char)
    (fields : List (String × String)) (q : Char) (k acc v rest : List Char)
    (hv : ∀ c ∈ v, c ≠ q ∧ c ≠ bslash ∧ 32 ≤ c.toNat) :
    flatGo qs tc esc fields (.inVal q k acc) (v ++ q :: rest)
      = flatGo qs tc esc (fields ++ [(String.mk k, String.mk (acc ++ v))]) .afterVal rest := by
  induction v generalizing acc with
  | nil => simp [flatGo]
  | cons c v ih =>
    obtain ⟨h1, h2, h3⟩ := hv c (List.mem_cons_self c v)
    have hlt : ¬ c.toNat < 32 := by omega
    simp only [List.cons_append, flatGo, List.append_eq]
    rw [if_neg h1, if_neg h2, if_neg hlt,
      ih (acc ++ [c]) fun x hx => hv x (List.mem_cons_of_mem c hx)]
    simp

/-- The canonical payload is the brace-delimited core of its own text. -/
theorem renderEmail_shape (t s b : String) :
    (renderEmail t s b).data
      = lbrace :: (quoteC :: 't' :: 'o' :: quoteC :: ':' :: ' ' :: quoteC
          :: (t.data ++ (quoteC :: ',' :: ' ' :: quoteC :: 's' :: 'u' :: 'b' :: 'j' :: 'e'
          :: 'c' :: 't' :: quoteC :: ':' :: ' ' :: quoteC
          :: (s.data ++ (quoteC :: ',' :: ' ' :: quoteC :: 'c' :: 'o' :: 'n' :: 't' :: 'e'
          :: 'n' :: 't' :: quoteC :: ':' :: ' ' :: quoteC
          :: (b.data ++ [quoteC])))))) ++ [rbrace] := by
  simp only [renderEmail, String.data_append, List.append_assoc, List.cons_append,
    List.singleton_append]
  rfl

/-- The subjectless payload is the brace-delimited core of its own text. -/
theorem renderEmailNoSubject_shape (t b : String) :
    (renderEmailNoSubject t b).data
      = lbrace :: (quoteC :: 't' :: 'o' :: quoteC :: ':' :: ' ' :: quoteC
          :: (t.data ++ (quoteC :: ',' :: ' ' :: quoteC :: 'c' :: 'o' :: 'n' :: 't' :: 'e'
          :: 'n' :: 't' :: quoteC :: ':' :: ' ' :: quoteC
          :: (b.data ++ [quoteC])))) ++ [rbrace] := by
  simp only [renderEmailNoSubject, String.data_append, List.append_assoc, List.cons_append,
    List.singleton_append]
  rfl

/-- Stripping a brace-delimited core changes nothing. -/
theorem pyStrip_core (mid : List Char) :
    pyStrip (lbrace :: mid ++ [rbrace]) = lbrace :: mid ++ [rbrace] := by
  simpa using pyStrip_embedded [] mid []

/-- The payload text in the nesting the parser traversal follows. -/
theorem renderEmail_data_parse (t s b : String) :
    (renderEmail t s b).data
      = lbrace :: quoteC :: 't' :: 'o' :: quoteC :: ':' :: ' ' :: quoteC
          :: (t.data ++ quoteC :: (',' :: ' ' :: quoteC :: 's' :: 'u' :: 'b' :: 'j' :: 'e'
          :: 'c' :: 't' :: quoteC :: ':' :: ' ' :: quoteC
          :: (s.data ++ quoteC :: (',' :: ' ' :: quoteC :: 'c' :: 'o' :: 'n' :: 't' :: 'e'
          :: 'n' :: 't' :: quoteC :: ':' :: ' ' :: quoteC
          :: (b.data ++ quoteC :: [rbrace]))))) := by
  simp only [renderEmail, String.data_append, List.append_assoc, List.cons_append,
    List.singleton_append]
  rfl

/-- The subjectless payload text in the nesting the parser traversal
follows. -/
theorem renderEmailNoSubject_data_parse (t b : String) :
    (renderEmailNoSubject t b).data
      = lbrace :: quoteC :: 't' :: 'o' :: quoteC :: ':' :: ' ' :: quoteC
          :: (t.data ++ quoteC :: (',' :: ' ' :: quoteC :: 'c' :: 'o' :: 'n' :: 't' :: 'e'
          :: 'n' :: 't' :: quoteC :: ':' :: ' ' :: quoteC
          :: (b.data ++ quoteC :: [rbrace]))) := by
  simp only [renderEmailNoSubject, String.data_append, List.append_assoc, List.cons_append,
    List.singleton_append]
  rfl

/-- The strict parse recovers exactly the three fields of the canonical
payload, for arbitrary clean field values. -/
theorem json_parse_renderEmail (t s b : String)
    (ht : cleanField t = true) (hs : cleanField s = true) (hb : cleanField b = true) :
    json_loads_flat (renderEmail t s b).data
      = some [("to", t), ("subject", s), ("content", b)] := by
  rw [renderEmail_data_parse]
  calc json_loads_flat (lbrace :: quoteC :: 't' :: 'o' :: quoteC :: ':' :: ' ' :: quoteC
          :: (t.data ++ quoteC :: (',' :: ' ' :: quoteC :: 's' :: 'u' :: 'b' :: 'j' :: 'e'
          :: 'c' :: 't' :: quoteC :: ':' :: ' ' :: quoteC
          :: (s.data ++ quoteC :: (',' :: ' ' :: quoteC :: 'c' :: 'o' :: 'n' :: 't' :: 'e'
          :: 'n' :: 't' :: quoteC :: ':' :: ' ' :: quoteC
          :: (b.data ++ quoteC :: [rbrace]))))))
      = flatGo [quoteC] false jsonEsc [] (.inVal quoteC ['t', 'o'] [])
          (t.data ++ quoteC :: (',' :: ' ' :: quoteC :: 's' :: 'u' :: 'b' :: 'j' :: 'e' :: 'c'
            :: 't' :: quoteC :: ':' :: ' ' :: quoteC
            :: (s.data ++ quoteC :: (',' :: ' ' :: quoteC :: 'c' :: 'o' :: 'n' :: 't' :: 'e'
            :: 'n' :: 't' :: quoteC :: ':' :: ' ' :: quoteC
            :: (b.data ++ quoteC :: [rbrace]))))) := rfl
    _ = flatGo [quoteC] false jsonEsc [("to", t)] .afterVal
          (',' :: ' ' :: quoteC :: 's' :: 'u' :: 'b' :: 'j' :: 'e' :: 'c' :: 't' :: quoteC
            :: ':' :: ' ' :: quoteC
            :: (s.data ++ quoteC :: (',' :: ' ' :: quoteC :: 'c' :: 'o' :: 'n' :: 't' :: 'e'
            :: 'n' :: 't' :: quoteC :: ':' :: ' ' :: quoteC
            :: (b.data ++ quoteC :: [rbrace])))) :=
        flatGo_inVal_clean _ _ _ _ _ _ _ _ _ (cleanField_spec t ht)
    _ = flatGo [quoteC] false jsonEsc [("to", t)]
          (.inVal quoteC ['s', 'u', 'b', 'j', 'e', 'c', 't'] [])
          (s.data ++ quoteC :: (',' :: ' ' :: quoteC :: 'c' :: 'o' :: 'n' :: 't' :: 'e' :: 'n'
            :: 't' :: quoteC :: ':' :: ' ' :: quoteC
            :: (b.data ++ quoteC :: [rbrace]))) := rfl
    _ = flatGo [quoteC] false jsonEsc [("to", t), ("subject", s)] .afterVal
          (',' :: ' ' :: quoteC :: 'c' :: 'o' :: 'n' :: 't' :: 'e' :: 'n' :: 't' :: quoteC
            :: ':' :: ' ' :: quoteC :: (b.data ++ quoteC :: [rbrace])) :=
        flatGo_inVal_clean _ _ _ _ _ _ _ _ _ (cleanField_spec s hs)
    _ = flatGo [quoteC] false jsonEsc [("to", t), ("subject", s)]
          (.inVal quoteC ['c', 'o', 'n', 't', 'e', 'n', 't'] [])
          (b.data ++ quoteC :: [rbrace]) := rfl
    _ = flatGo [quoteC] false jsonEsc [("to", t), ("subject", s), ("content", b)] .afterVal
          [rbrace] :=
        flatGo_inVal_clean _ _ _ _ _ _ _ _ _ (cleanField_spec b hb)
    _ = some [("to", t), ("subject", s), ("content", b)] := rfl

/-- The strict parse recovers exactly the two fields of the subjectless
payload. -/
theorem json_parse_renderEmailNoSubject (t b : String)
    (ht : cleanField t = true) (hb : cleanField b = true) :
    json_loads_flat (renderEmailNoSubject t b).data = some [("to", t), ("content", b)] := by
  rw [renderEmailNoSubject_data_parse]
  calc json_loads_flat (lbrace :: quoteC :: 't' :: 'o' :: quoteC :: ':' :: ' ' :: quoteC
          :: (t.data ++ quoteC :: (',' :: ' ' :: quoteC :: 'c' :: 'o' :: 'n' :: 't' :: 'e'
          :: 'n' :: 't' :: quoteC :: ':' :: ' ' :: quoteC
          :: (b.data ++ quoteC :: [rbrace]))))
      = flatGo [quoteC] false jsonEsc [] (.inVal quoteC ['t', 'o'] [])
          (t.data ++ quoteC :: (',' :: ' ' :: quoteC :: 'c' :: 'o' :: 'n' :: 't' :: 'e' :: 'n'
            :: 't' :: quoteC :: ':' :: ' ' :: quoteC
            :: (b.data ++ quoteC :: [rbrace]))) := rfl
    _ = flatGo [quoteC] false jsonEsc [("to", t)] .afterVal
          (',' :: ' ' :: quoteC :: 'c' :: 'o' :: 'n' :: 't' :: 'e' :: 'n' :: 't' :: quoteC
            :: ':' :: ' ' :: quoteC :: (b.data ++ quoteC :: [rbrace])) :=
        flatGo_inVal_clean _ _ _ _ _ _ _ _ _ (cleanField_spec t ht)
    _ = flatGo [quoteC] false jsonEsc [("to", t)]
          (.inVal quoteC ['c', 'o', 'n', 't', 'e', 'n', 't'] [])
          (b.data ++ quoteC :: [rbrace]) := rfl
    _ = flatGo [quoteC] false jsonEsc [("to", t), ("content", b)] .afterVal [rbrace] :=
        flatGo_inVal_clean _ _ _ _ _ _ _ _ _ (cleanField_spec b hb)
    _ = some [("to", t), ("content", b)] := rfl

/-- Stripping then taking the brace span of text around an embedded
brace-delimited core recovers exactly the core when the leading text has
no `{` and the trailing text no `}`. -/
theorem braceSpanL_strip_embedded (p mid q : List Char)
    (hp : lbrace ∉ p) (hq : rbrace ∉ q) :
    braceSpanL (pyStrip (p ++ (lbrace :: mid ++ [rbrace]) ++ q))
      = some (lbrace :: mid ++ [rbrace]) := by
  rw [pyStrip_embedded]
  exact braceSpanL_embedded _ _ _
    (fun h => hp ((List.dropWhile_sublist pyWs).subset h))
    (fun h => hq (List.mem_reverse.mp
      ((List.dropWhile_sublist pyWs).subset (List.mem_reverse.mp h))))

/-- C6 (amended): for any well-formed payload whose fields carry no quote,
backslash or control character, embedded in leading prose containing no
`{` and trailing prose containing no `}`, the extractor's brace span is
exactly the payload, the strict parse recovers exactly the enclosed
recipient, subject and body, and (for a recipient containing `@`) the send
call receives exactly those fields — with subject defaulting to
`"No Subject"` when the field is absent. -/
theorem extractor_recovers_embedded_payload
    (t s b pfx sfx p : String) (oc : Except String Nat) (msgs : List Msg)
    (ht : cleanField t = true) (hs : cleanField s = true) (hb : cleanField b = true)
    (hp : lbrace ∉ pfx.data) (hq : rbrace ∉ sfx.data) :
    braceSpanL (strip (pfx ++ renderEmail t s b ++ sfx)).data
        = some (renderEmail t s b).data ∧
    json_loads_flat (pyStrip (renderEmail t s b).data)
        = some [("to", t), ("subject", s), ("content", b)] ∧
    ('@' ∈ t.data →
      (extract_email_parameters (fun _ => pfx ++ renderEmail t s b ++ sfx) p oc msgs).sendCall
        = some (t, s, b)) ∧
    ('@' ∈ t.data →
      (extract_email_parameters (fun _ => pfx ++ renderEmailNoSubject t b ++ sfx)
          p oc msgs).sendCall
        = some (t, "No Subject", b)) := by
  have hspan : braceSpanL (strip (pfx ++ renderEmail t s b ++ sfx)).data
      = some (renderEmail t s b).data := by
    have hdata : (strip (pfx ++ renderEmail t s b ++ sfx)).data
        = pyStrip (pfx.data ++ (renderEmail t s b).data ++ sfx.data) := rfl
    rw [hdata, renderEmail_shape]
    exact braceSpanL_strip_embedded pfx.data _ sfx.data hp hq
  have hspan2 : braceSpanL (strip (pfx ++ renderEmailNoSubject t b ++ sfx)).data
      = some (renderEmailNoSubject t b).data := by
    have hdata : (strip (pfx ++ renderEmailNoSubject t b ++ sfx)).data
        = pyStrip (pfx.data ++ (renderEmailNoSubject t b).data ++ sfx.data) := rfl
    rw [hdata, renderEmailNoSubject_shape]
    exact braceSpanL_strip_embedded pfx.data _ sfx.data hp hq
  have hparse : json_loads_flat (pyStrip (renderEmail t s b).data)
      = some [("to", t), ("subject", s), ("content", b)] := by
    rw [renderEmail_shape, pyStrip_core, ← renderEmail_shape]
    exact json_parse_renderEmail t s b ht hs hb
  have hparse2 : json_loads_flat (pyStrip (renderEmailNoSubject t b).data)
      = some [("to", t), ("content", b)] := by
    rw [renderEmailNoSubject_shape, pyStrip_core, ← renderEmailNoSubject_shape]
    exact json_parse_renderEmailNoSubject t b ht hb
  have hfb : parseJsonWithFallback (pyStrip (renderEmail t s b).data)
      = some [("to", t), ("subject", s), ("content", b)] := by
    unfold parseJsonWithFallback
    rw [hparse]
  have hfb2 : parseJsonWithFallback (pyStrip (renderEmailNoSubject t b).data)
      = some [("to", t), ("content", b)] := by
    unfold parseJsonWithFallback
    rw [hparse2]
  refine ⟨hspan, hparse, fun hat => ?_, fun hat => ?_⟩
  · have hne : ¬ t = "" := by
      intro he
      subst he
      simp at hat
    have hinv : invalidRecipient (jget [("to", t), ("subject", s), ("content", b)] "to")
        = false := by
      have hj : jget [("to", t), ("subject", s), ("content", b)] "to" = some t := rfl
      rw [hj]
      simp [invalidRecipient, hne, hat]
    unfold extract_email_parameters
    dsimp only
    rw [hspan]
    dsimp only
    rw [hfb]
    dsimp only
    rw [if_neg (by rw [hinv]; exact Bool.false_ne_true)]
    rfl
  · have hne : ¬ t = "" := by
      intro he
      subst he
      simp at hat
    have hinv : invalidRecipient (jget [("to", t), ("content", b)] "to") = false := by
      have hj : jget [("to", t), ("content", b)] "to" = some t := rfl
      rw [hj]
      simp [invalidRecipient, hne, hat]
    unfold extract_email_parameters
    dsimp only
    rw [hspan2]
    dsimp only
    rw [hfb2]
    dsimp only
    rw [if_neg (by rw [hinv]; exact Bool.false_ne_true)]
    rfl

/-- C6 witness: a concrete well-formed payload between brace-free prose is
recovered field-for-field and handed to the send call. -/
theorem extractor_recovers_embedded_payload_witness :
    (extract_email_parameters
        (fun _ => "Sure! Here it is: " ++ renderEmail "alice@example.com" "Hi" "Hello"
          ++ " Done.")
        "e" (.ok 202) [Msg.human "mail alice"]).sendCall
      = some ("alice@example.com", "Hi", "Hello") :=
  (extractor_recovers_embedded_payload "alice@example.com" "Hi" "Hello"
    "Sure! Here it is: " " Done." "e" (.ok 202) [Msg.human "mail alice"]
    (by decide) (by decide) (by decide) (by decide) (by decide)).2.2.1 (by decide)
